import Mathlib

/-!
Shallow embedding of `Table.py`: a text-table renderer (`TextTable`, with
box-drawing borders) and a horizontal table composer (`TextTables`).

Python strings are modelled as Lean `String` (length counts code points,
matching Python `len`), Python values as `PyVal` with `pyStr` for `str(...)`,
dicts as association lists (insertion-ordered, looked up with
`List.lookup`), and Python `None`-able parameters as `Option`.
Indexed list writes/reads (`col_widths[i]`) are modelled structurally by
recursion on both lists; the branch Python would reach only by raising
`IndexError` is additionally modelled by checked variants returning
`Option` (`updateWidthsE`, `alignCellsE`, `TextTable.renderE`), with the
total functions proved to agree with the checked ones on in-bounds input.
-/

set_option autoImplicit false

/-- Values stored in records: Python objects rendered by `str(...)`.
Only strings and integers appear in the concrete scenarios. -/
inductive PyVal where
  | s : String → PyVal
  | i : Int → PyVal
deriving DecidableEq, Repr

/-- Python `str(v)` for the modelled values. -/
def pyStr : PyVal → String
  | .s v => v
  | .i n => toString n

/-- One record: a dict (insertion-ordered association list) or a sequence,
as in `data: (list[dict] | list[list])`. -/
inductive Rec where
  | dict : List (String × PyVal) → Rec
  | seq : List PyVal → Rec
deriving DecidableEq, Repr

/-- Python `c * n` for a one-character string: `n` copies of `c`. -/
def repeatChar (c : Char) (n : Nat) : String :=
  String.mk (List.replicate n c)

/-- A run of `n` space characters. -/
def spaces (n : Nat) : String :=
  repeatChar ' ' n

/-- Python `sep.join(parts)`. -/
def joinSep (sep : String) : List String → String
  | [] => ""
  | [c] => c
  | c :: cs => c ++ sep ++ joinSep sep cs

/-- Python `text.ljust(width)` (space fill). -/
def ljust (text : String) (width : Nat) : String :=
  text ++ spaces (width - text.length)

/-- Python `text.rjust(width)` (space fill). -/
def rjust (text : String) (width : Nat) : String :=
  spaces (width - text.length) ++ text

/-- Python `text.center(width)` (space fill), following CPython:
`marg = width - len(text)`, `left = marg // 2 + (marg & width & 1)`,
pad with `left` fill characters on the left and `marg - left` on the
right; unchanged when the text is already at least `width` long. -/
def center (text : String) (width : Nat) : String :=
  if width ≤ text.length then text
  else
    let marg := width - text.length
    let left := marg / 2 + (marg &&& width &&& 1)
    spaces left ++ text ++ spaces (marg - left)

/-- Method `_align_text`: `right` → `rjust`, `center` → `center`, anything
else (including `left`) → `ljust`. -/
def alignText (text : String) (width : Nat) (align : String) : String :=
  if align = "right" then rjust text width
  else if align = "center" then center text width
  else ljust text width

/-- Class `TextTable` state: constructor-stored `data`, `headers`,
`header_padding`. -/
structure TextTable where
  data : List Rec
  headers : List String
  header_padding : Bool
deriving DecidableEq, Repr

/-- Method `_extract_headers`: `[]` on empty data, the first record's keys
for a dict, synthetic `Col0, Col1, ...` names for a sequence. -/
def extractHeaders : List Rec → List String
  | [] => []
  | .dict d :: _ => d.map Prod.fst
  | .seq l :: _ => (List.range l.length).map (fun i => "Col" ++ toString i)

/-- Constructor `__init__(data, headers=None, header_padding=True)`:
`self.headers = headers or self._extract_headers()`, where Python `or`
falls through both on `None` and on an empty (falsy) list. -/
def mkTextTable (data : List Rec) (headers : Option (List String))
    (header_padding : Bool) : TextTable :=
  { data := data
    headers :=
      match headers with
      | none => extractHeaders data
      | some hs => if hs.isEmpty then extractHeaders data else hs
    header_padding := header_padding }

/-- Method `_get_row_values`: for a dict row, `str(row.get(h, ""))` per
header; for a sequence row, `str(v)` per element. -/
def TextTable.getRowValues (t : TextTable) (row : Rec) : List String :=
  match row with
  | .dict d => t.headers.map (fun h => pyStr ((List.lookup h d).getD (PyVal.s "")))
  | .seq l => l.map pyStr

/-- The inner width loop `for i, val in enumerate(values):
col_widths[i] = max(col_widths[i], len(val))`, modelled structurally:
position `i` of the result is `max ws[i] values[i].length`. A `values`
list longer than `ws` would raise `IndexError` in Python; the total model
ignores the excess (see `updateWidthsE` for the checked model). -/
def updateWidths : List Nat → List String → List Nat
  | ws, [] => ws
  | [], _ :: _ => []
  | w :: ws, v :: vs => max w v.length :: updateWidths ws vs

/-- Checked variant of `updateWidths`: `none` exactly when Python's
`col_widths[i] = ...` would raise `IndexError` (a row with more values
than there are column widths). -/
def updateWidthsE : List Nat → List String → Option (List Nat)
  | ws, [] => some ws
  | [], _ :: _ => none
  | w :: ws, v :: vs => (updateWidthsE ws vs).map (fun rest => max w v.length :: rest)

/-- The width computation of `render` (lines 32-36): seed with header
lengths, then widen with every row's value lengths. -/
def TextTable.colWidths (t : TextTable) : List Nat :=
  t.data.foldl (fun ws row => updateWidths ws (t.getRowValues row))
    (t.headers.map String.length)

/-- Checked variant of `TextTable.colWidths`. -/
def TextTable.colWidthsE (t : TextTable) : Option (List Nat) :=
  t.data.foldl (fun acc row => acc.bind (fun ws => updateWidthsE ws (t.getRowValues row)))
    (some (t.headers.map String.length))

/-- A cell loop `for j, val in enumerate(values):
cells.append(self._align_text(val, col_widths[j], align))`, modelled
structurally. A `values` list longer than `ws` would raise `IndexError`
in Python; the total model uses width 0 for the excess (see
`alignCellsE` for the checked model). -/
def alignCells (align : String) : List String → List Nat → List String
  | [], _ => []
  | c :: cs, [] => alignText c 0 align :: alignCells align cs []
  | c :: cs, w :: ws => alignText c w align :: alignCells align cs ws

/-- Checked variant of `alignCells`: `none` exactly when the read
`col_widths[j]` would raise `IndexError`. -/
def alignCellsE (align : String) : List String → List Nat → Option (List String)
  | [], _ => some []
  | _ :: _, [] => none
  | c :: cs, w :: ws =>
    (alignCellsE align cs ws).map (fun rest => alignText c w align :: rest)

/-- One horizontal-rule segment `"─" * (w + 2)`. -/
def hseg (w : Nat) : String := repeatChar '─' (w + 2)

/-- Top border (line 42). -/
def topBorder (ws : List Nat) : String :=
  "┌" ++ joinSep "┬" (ws.map hseg) ++ "┐"

/-- Header separator and inter-row divider (lines 56, 68). -/
def sepLine (ws : List Nat) : String :=
  "├" ++ joinSep "┼" (ws.map hseg) ++ "┤"

/-- Bottom border (line 71). -/
def bottomBorder (ws : List Nat) : String :=
  "└" ++ joinSep "┴" (ws.map hseg) ++ "┘"

/-- A content line: `"│ " + " │ ".join(cells) + " │"` (lines 50, 52, 64). -/
def rowLine (cells : List String) : String :=
  "│ " ++ joinSep " │ " cells ++ " │"

/-- Method `render(align="left")`: empty list on empty data, otherwise
top border, header row, optional header-padding row (every cell a single
aligned space), header separator, the data rows with a divider between
every two consecutive rows (the loop of lines 59-68, which is exactly
`List.intersperse` of the divider), and the bottom border. -/
def TextTable.render (t : TextTable) (align : String) : List String :=
  if t.data = [] then []
  else
    let ws := t.colWidths
    [topBorder ws, rowLine (alignCells align t.headers ws)]
      ++ (if t.header_padding then
            [rowLine (alignCells align (t.headers.map (fun _ => " ")) ws)]
          else [])
      ++ [sepLine ws]
      ++ List.intersperse (sepLine ws)
          (t.data.map (fun r => rowLine (alignCells align (t.getRowValues r) ws)))
      ++ [bottomBorder ws]

/-- Checked variant of `TextTable.render`: `none` exactly when some list
index taken during rendering is out of bounds. -/
def TextTable.renderE (t : TextTable) (align : String) : Option (List String) :=
  if t.data = [] then some []
  else
    t.colWidthsE.bind (fun ws =>
    (alignCellsE align t.headers ws).bind (fun headerCells =>
    (alignCellsE align (t.headers.map (fun _ => " ")) ws).bind (fun padCells =>
    (t.data.mapM (fun r => alignCellsE align (t.getRowValues r) ws)).map (fun rowsCells =>
      [topBorder ws, rowLine headerCells]
        ++ (if t.header_padding then [rowLine padCells] else [])
        ++ [sepLine ws]
        ++ List.intersperse (sepLine ws) (rowsCells.map rowLine)
        ++ [bottomBorder ws]))))

/-- Python `text.rstrip()` restricted to the space character (the only
whitespace the aligner inserts). -/
def rstripSpaces (s : String) : String :=
  String.mk ((s.data.reverse.dropWhile (fun c => c = ' ')).reverse)

/-- Python `text.lstrip()` restricted to the space character. -/
def lstripSpaces (s : String) : String :=
  String.mk (s.data.dropWhile (fun c => c = ' '))

/-- Python `text.strip()` restricted to the space character. -/
def stripSpaces (s : String) : String :=
  lstripSpaces (rstripSpaces s)

/-- Class `TextTables` state. -/
structure TextTables where
  tables : List TextTable
  inline : Bool
deriving DecidableEq, Repr

/-- One variadic argument to the `TextTables` constructor: an existing
`TextTable` or raw record data. -/
inductive TableArg where
  | table : TextTable → TableArg
  | raw : List Rec → TableArg
deriving DecidableEq, Repr

/-- Constructor `__init__(*tables, inline=False)`: raw data is wrapped in
`TextTable(t)` (default headers, default header padding). -/
def mkTextTables (args : List TableArg) (inline : Bool) : TextTables :=
  { tables := args.map (fun a =>
      match a with
      | .table t => t
      | .raw d => mkTextTable d none true)
    inline := inline }

/-- All construction-time tables rendered with one alignment
(`rendered_tables`, line 111). -/
def TextTables.renderedTables (self : TextTables) (align : String) : List (List String) :=
  self.tables.map (fun t => t.render align)

/-- Line 114, `max(len(t) for t in rendered_tables)`, as a fold with seed 0
(the fold is only reached when there is at least one table). -/
def TextTables.maxHeight (self : TextTables) (align : String) : Nat :=
  (self.renderedTables align).foldl (fun m t => max m t.length) 0

/-- Python `len(t[0]) if t else 0`: the length of a rendered table's first
line, 0 when it has no lines. -/
def firstWidth : List String → Nat
  | [] => 0
  | l :: _ => l.length

/-- Line 117, `len(t[0]) if t else 0` per rendered table. -/
def TextTables.tableWidths (self : TextTables) (align : String) : List Nat :=
  (self.renderedTables align).map firstWidth

/-- Lines 120-122: each rendered table extended to `max_height` lines by
appending blank lines of that table's own width. -/
def TextTables.paddedTables (self : TextTables) (align : String) : List (List String) :=
  ((self.renderedTables align).zip (self.tableWidths align)).map (fun p =>
    p.1 ++ List.replicate (self.maxHeight align - p.1.length) (spaces p.2))

/-- Lines 125-129: row `i` of the output is the `i`-th line of every padded
table joined by the gap (every padded table has `max_height` lines, so the
index is in bounds; `getD` supplies an unreachable default). -/
def TextTables.groupRows (self : TextTables) (spacing : Nat) (align : String) : List String :=
  (List.range (self.maxHeight align)).map (fun i =>
    joinSep (spaces spacing) ((self.paddedTables align).map (fun tl => tl.getD i "")))

/-- Method `group(*tables, spacing=2, align="left")`: the first statement
`tables = self.tables` discards the variadic argument, then the empty
guard returns `""`, otherwise the padded rows joined with newlines. -/
def TextTables.group (self : TextTables) (tablesArg : List TextTable)
    (spacing : Nat) (align : String) : String :=
  let tables := self.tables
  if tables.isEmpty then ""
  else joinSep "\n" (self.groupRows spacing align)

/-!
Auxiliary lemmas about the string primitives.
-/

theorem length_mk (l : List Char) : (String.mk l).length = l.length := rfl

theorem length_repeatChar (c : Char) (n : Nat) : (repeatChar c n).length = n := by
  simp [repeatChar, length_mk]

theorem length_spaces (n : Nat) : (spaces n).length = n :=
  length_repeatChar ' ' n

theorem length_joinSep (sep : String) :
    ∀ l : List String, l ≠ [] →
      (joinSep sep l).length = (l.map String.length).sum + sep.length * (l.length - 1)
  | [c], _ => by simp [joinSep]
  | c :: c2 :: cs, _ => by
    have ih := length_joinSep sep (c2 :: cs) (by simp)
    simp only [joinSep, String.length_append, ih, List.map_cons, List.sum_cons,
      List.length_cons, Nat.add_sub_cancel, Nat.mul_succ]
    omega

theorem length_ljust (s : String) (w : Nat) : (ljust s w).length = max s.length w := by
  simp [ljust, String.length_append, length_spaces]
  omega

theorem length_rjust (s : String) (w : Nat) : (rjust s w).length = max s.length w := by
  simp [rjust, String.length_append, length_spaces]
  omega

/-- The CPython parity term `marg & width & 1` is 1 exactly when both are odd. -/
theorem land_one_parity (m w : Nat) :
    m &&& w &&& 1 = if m % 2 = 1 ∧ w % 2 = 1 then 1 else 0 := by
  rw [Nat.land_assoc, Nat.and_one_is_mod]
  rcases Nat.mod_two_eq_zero_or_one w with hw | hw <;> rw [hw]
  · simp [Nat.and_zero, hw]
  · rw [Nat.and_one_is_mod]
    rcases Nat.mod_two_eq_zero_or_one m with hm | hm <;> simp [hm, hw]

theorem land_one_le_one (m w : Nat) : m &&& w &&& 1 ≤ 1 := by
  rw [land_one_parity]
  split <;> omega

theorem length_center (s : String) (w : Nat) : (center s w).length = max s.length w := by
  unfold center
  split
  · omega
  · rename_i h
    have := land_one_le_one (w - s.length) w
    simp only [String.length_append, length_spaces]
    omega

theorem length_alignText (s : String) (w : Nat) (a : String) :
    (alignText s w a).length = max s.length w := by
  unfold alignText
  split
  · exact length_rjust s w
  · split
    · exact length_center s w
    · exact length_ljust s w

/-!
Lemmas about the column-width computation.
-/

theorem length_updateWidths :
    ∀ (ws : List Nat) (vs : List String), (updateWidths ws vs).length = ws.length
  | _, [] => by simp [updateWidths]
  | [], _ :: _ => rfl
  | w :: ws, v :: vs => by
    simp [updateWidths, length_updateWidths ws vs]

theorem getD_le_updateWidths :
    ∀ (ws : List Nat) (vs : List String) (j : Nat),
      ws.getD j 0 ≤ (updateWidths ws vs).getD j 0
  | _, [], _ => by simp [updateWidths]
  | [], _ :: _, j => by simp [updateWidths]
  | w :: ws, v :: vs, 0 => by simp [updateWidths]
  | w :: ws, v :: vs, j + 1 => by
    simpa [updateWidths] using getD_le_updateWidths ws vs j

theorem values_le_updateWidths :
    ∀ (ws : List Nat) (vs : List String) (j : Nat),
      vs.length ≤ ws.length → j < vs.length →
      ((vs.getD j "").length) ≤ (updateWidths ws vs).getD j 0
  | _, [], j => by intro _ hj; simp at hj
  | [], v :: vs, j => by intro h _; simp at h
  | w :: ws, v :: vs, 0 => by intro _ _; simp [updateWidths]
  | w :: ws, v :: vs, j + 1 => by
    intro h hj
    simpa [updateWidths] using
      values_le_updateWidths ws vs j (by simpa using h) (by simpa using hj)

theorem length_foldl_updateWidths (f : Rec → List String) :
    ∀ (rows : List Rec) (init : List Nat),
      (rows.foldl (fun ws row => updateWidths ws (f row)) init).length = init.length
  | [], _ => rfl
  | r :: rs, init => by
    simp only [List.foldl_cons]
    rw [length_foldl_updateWidths f rs, length_updateWidths]

theorem getD_le_foldl_updateWidths (f : Rec → List String) :
    ∀ (rows : List Rec) (init : List Nat) (j : Nat),
      init.getD j 0 ≤ (rows.foldl (fun ws row => updateWidths ws (f row)) init).getD j 0
  | [], _, _ => le_refl _
  | r :: rs, init, j => by
    simp only [List.foldl_cons]
    exact le_trans (getD_le_updateWidths init (f r) j)
      (getD_le_foldl_updateWidths f rs (updateWidths init (f r)) j)

theorem row_le_foldl_updateWidths (f : Rec → List String) :
    ∀ (rows : List Rec) (init : List Nat) (r : Rec), r ∈ rows →
      (f r).length ≤ init.length →
      ∀ j : Nat, j < (f r).length →
      ((f r).getD j "").length ≤ (rows.foldl (fun ws row => updateWidths ws (f row)) init).getD j 0
  | [], _, r, hr => absurd hr (List.not_mem_nil r)
  | r0 :: rs, init, r, hr => by
    intro hlen j hj
    simp only [List.foldl_cons]
    rcases List.mem_cons.mp hr with rfl | hmem
    · exact le_trans (values_le_updateWidths init (f r) j hlen hj)
        (getD_le_foldl_updateWidths f rs (updateWidths init (f r)) j)
    · exact row_le_foldl_updateWidths f rs (updateWidths init (f r0)) r hmem
        (by rwa [length_updateWidths]) j hj

theorem length_colWidths (t : TextTable) : t.colWidths.length = t.headers.length := by
  unfold TextTable.colWidths
  rw [length_foldl_updateWidths]
  simp

theorem getD_map_length :
    ∀ (hs : List String) (j : Nat), (hs.map String.length).getD j 0 = (hs.getD j "").length
  | [], _ => rfl
  | h :: hs, 0 => rfl
  | h :: hs, j + 1 => by simpa using getD_map_length hs j

theorem header_le_colWidths (t : TextTable) (j : Nat) :
    (t.headers.getD j "").length ≤ t.colWidths.getD j 0 := by
  have := getD_le_foldl_updateWidths (t.getRowValues) t.data (t.headers.map String.length) j
  rwa [getD_map_length] at this

theorem row_le_colWidths (t : TextTable) (r : Rec) (hr : r ∈ t.data)
    (hlen : (t.getRowValues r).length ≤ t.headers.length) (j : Nat)
    (hj : j < (t.getRowValues r).length) :
    ((t.getRowValues r).getD j "").length ≤ t.colWidths.getD j 0 := by
  exact row_le_foldl_updateWidths (t.getRowValues) t.data (t.headers.map String.length) r hr
    (by simpa using hlen) j hj

/-!
Lemmas about cell alignment.
-/

theorem length_alignCells (align : String) :
    ∀ (cs : List String) (ws : List Nat), (alignCells align cs ws).length = cs.length
  | [], _ => rfl
  | c :: cs, [] => by simp [alignCells, length_alignCells align cs []]
  | c :: cs, w :: ws => by simp [alignCells, length_alignCells align cs ws]

theorem map_length_alignCells (align : String) :
    ∀ (cs : List String) (ws : List Nat),
      cs.length = ws.length →
      (∀ j : Nat, j < cs.length → (cs.getD j "").length ≤ ws.getD j 0) →
      (alignCells align cs ws).map String.length = ws
  | [], [], _, _ => rfl
  | [], w :: ws, h, _ => by simp at h
  | c :: cs, [], h, _ => by simp at h
  | c :: cs, w :: ws, h, hle => by
    have h0 : c.length ≤ w := by simpa using hle 0 (by simp)
    have ih := map_length_alignCells align cs ws (by simpa using h)
      (fun j hj => by simpa using hle (j + 1) (by simpa using hj))
    simp [alignCells, length_alignText, ih, Nat.max_eq_right h0]

/-!
Lemmas about the lengths of full table lines.
-/

theorem sum_map_add_two : ∀ ws : List Nat, (ws.map (fun w => w + 2)).sum = ws.sum + 2 * ws.length
  | [] => rfl
  | w :: ws => by
    simp [sum_map_add_two ws]
    ring

theorem length_joinSep_hseg (sep : String) (ws : List Nat) (h : ws ≠ []) :
    (joinSep sep (ws.map hseg)).length =
      ws.sum + 2 * ws.length + sep.length * (ws.length - 1) := by
  rw [length_joinSep sep (ws.map hseg) (by simpa using h)]
  have : (ws.map hseg).map String.length = ws.map (fun w => w + 2) := by
    simp [hseg, Function.comp, length_repeatChar]
  rw [this, sum_map_add_two]
  simp

theorem length_topBorder (ws : List Nat) (h : ws ≠ []) :
    (topBorder ws).length = ws.sum + 3 * ws.length + 1 := by
  have hpos : 0 < ws.length := List.length_pos.mpr h
  have hj := length_joinSep_hseg "┬" ws h
  have h1 : ("┌" : String).length = 1 := rfl
  have h2 : ("┐" : String).length = 1 := rfl
  have h3 : ("┬" : String).length = 1 := rfl
  rw [h3] at hj
  simp only [topBorder, String.length_append, hj, h1, h2]
  omega

theorem length_sepLine (ws : List Nat) (h : ws ≠ []) :
    (sepLine ws).length = ws.sum + 3 * ws.length + 1 := by
  have hpos : 0 < ws.length := List.length_pos.mpr h
  have hj := length_joinSep_hseg "┼" ws h
  have h3 : ("┼" : String).length = 1 := rfl
  rw [h3] at hj
  simp only [sepLine, String.length_append, hj]
  have h1 : ("├" : String).length = 1 := rfl
  have h2 : ("┤" : String).length = 1 := rfl
  rw [h1, h2]
  omega

theorem length_bottomBorder (ws : List Nat) (h : ws ≠ []) :
    (bottomBorder ws).length = ws.sum + 3 * ws.length + 1 := by
  have hpos : 0 < ws.length := List.length_pos.mpr h
  have hj := length_joinSep_hseg "┴" ws h
  have h3 : ("┴" : String).length = 1 := rfl
  rw [h3] at hj
  simp only [bottomBorder, String.length_append, hj]
  have h1 : ("└" : String).length = 1 := rfl
  have h2 : ("┘" : String).length = 1 := rfl
  rw [h1, h2]
  omega

theorem length_rowLine (cells : List String) (h : cells ≠ []) :
    (rowLine cells).length = (cells.map String.length).sum + 3 * cells.length + 1 := by
  have hpos : 0 < cells.length := List.length_pos.mpr h
  have hj := length_joinSep " │ " cells h
  have h3 : (" │ " : String).length = 3 := rfl
  rw [h3] at hj
  simp only [rowLine, String.length_append, hj]
  have h1 : ("│ " : String).length = 2 := rfl
  have h2 : (" │" : String).length = 2 := rfl
  rw [h1, h2]
  omega

theorem mem_intersperse {α : Type} (sep x : α) :
    ∀ l : List α, x ∈ List.intersperse sep l → x = sep ∨ x ∈ l
  | [] => by simp [List.intersperse]
  | [a] => by
    intro h
    simp [List.intersperse] at h
    simp [h]
  | a :: b :: t => by
    intro h
    simp only [List.intersperse_cons₂] at h
    rcases List.mem_cons.mp h with rfl | h
    · simp
    · rcases List.mem_cons.mp h with rfl | h
      · exact Or.inl rfl
      · rcases mem_intersperse sep x (b :: t) h with h | h
        · exact Or.inl h
        · exact Or.inr (List.mem_cons_of_mem a h)

theorem getD_mem {α : Type} (l : List α) (j : Nat) (d : α) (h : j < l.length) :
    l.getD j d ∈ l := by
  rw [List.getD_eq_getElem l d h]
  exact List.getElem_mem h

theorem getD_map_const_space :
    ∀ (hs : List String) (j : Nat), j < hs.length → (hs.map (fun _ => " ")).getD j "" = " "
  | _ :: _, 0, _ => rfl
  | h :: hs, j + 1, hj => by simpa using getD_map_const_space hs j (by simpa using hj)

/-- The two-record mapping table of the spec's concrete scenario:
`[{"a": 1, "b": "x"}, {"a": 22, "b": "yy"}]`, derived headers, header
padding on. -/
def scenarioTable : TextTable :=
  mkTextTable
    [Rec.dict [("a", PyVal.i 1), ("b", PyVal.s "x")],
     Rec.dict [("a", PyVal.i 22), ("b", PyVal.s "yy")]] none true

/-- A table whose single record is the empty sequence: one uniform record,
zero derived headers. -/
def degenerateNoColumns : TextTable :=
  mkTextTable [Rec.seq []] none true

/-- A table whose single column has the empty string both as header and as
cell value, so its computed column width is 0, with header padding on. -/
def degenerateZeroWidth : TextTable :=
  mkTextTable [Rec.dict [("", PyVal.s "")]] none true

/-- C1 (amended): for every non-empty list of uniform records (every
sequence record as long as the header list), and additionally provided the
header list is non-empty and, when the header-padding row is emitted, every
computed column width is at least 1, every line returned by
`render(alignment)` has the same character length, for each alignment in
left/right/center and both values of the header-padding flag. -/
theorem c1_rectangularity_amended (t : TextTable) (align : String)
    (halign : align = "left" ∨ align = "right" ∨ align = "center")
    (hdata : t.data ≠ [])
    (hshape : ∀ r ∈ t.data, (t.getRowValues r).length = t.headers.length)
    (hhdr : t.headers ≠ [])
    (hpad : t.header_padding = true → ∀ w ∈ t.colWidths, 1 ≤ w) :
    ∀ line ∈ t.render align, line.length = t.colWidths.sum + 3 * t.headers.length + 1 := by
  intro line hline
  have hwl : t.colWidths.length = t.headers.length := length_colWidths t
  have hhlen : 0 < t.headers.length := List.length_pos.mpr hhdr
  have hwne : t.colWidths ≠ [] := by
    intro h0
    rw [h0] at hwl
    simp at hwl
    omega
  have hdataRow : ∀ r ∈ t.data,
      (rowLine (alignCells align (t.getRowValues r) t.colWidths)).length
        = t.colWidths.sum + 3 * t.headers.length + 1 := by
    intro r hr
    have hlen : (t.getRowValues r).length = t.headers.length := hshape r hr
    have hmap := map_length_alignCells align (t.getRowValues r) t.colWidths
      (by rw [hlen, hwl]) (fun j hj => row_le_colWidths t r hr (le_of_eq hlen) j hj)
    have hcne : alignCells align (t.getRowValues r) t.colWidths ≠ [] := by
      intro h0
      have h1 := length_alignCells align (t.getRowValues r) t.colWidths
      rw [h0, hlen] at h1
      simp at h1
      omega
    rw [length_rowLine _ hcne, hmap, length_alignCells, hlen]
  have hhdrRow :
      (rowLine (alignCells align t.headers t.colWidths)).length
        = t.colWidths.sum + 3 * t.headers.length + 1 := by
    have hmap := map_length_alignCells align t.headers t.colWidths hwl.symm
      (fun j _ => header_le_colWidths t j)
    have hcne : alignCells align t.headers t.colWidths ≠ [] := by
      intro h0
      have h1 := length_alignCells align t.headers t.colWidths
      rw [h0] at h1
      simp at h1
      omega
    rw [length_rowLine _ hcne, hmap, length_alignCells]
  have hpadRow : t.header_padding = true →
      (rowLine (alignCells align (t.headers.map (fun _ => " ")) t.colWidths)).length
        = t.colWidths.sum + 3 * t.headers.length + 1 := by
    intro hp
    have hmap := map_length_alignCells align (t.headers.map (fun _ => " ")) t.colWidths
      (by simpa using hwl.symm)
      (fun j hj => by
        have hj2 : j < t.headers.length := by simpa using hj
        rw [getD_map_const_space t.headers j hj2]
        have hw : t.colWidths.getD j 0 ∈ t.colWidths :=
          getD_mem t.colWidths j 0 (by omega)
        exact hpad hp _ hw)
    have hcne : alignCells align (t.headers.map (fun _ => " ")) t.colWidths ≠ [] := by
      intro h0
      have h1 := length_alignCells align (t.headers.map (fun _ => " ")) t.colWidths
      rw [h0] at h1
      simp at h1
      omega
    rw [length_rowLine _ hcne, hmap, length_alignCells]
    simp
  simp only [TextTable.render, if_neg hdata] at hline
  cases hp : t.header_padding <;>
    simp only [hp, Bool.false_eq_true, if_false, if_true, List.append_assoc, List.cons_append,
      List.nil_append, List.mem_cons, List.mem_append, List.mem_singleton,
      List.mem_nil_iff, or_false] at hline
  · rcases hline with rfl | rfl | rfl | hline | rfl
    · rw [length_topBorder _ hwne, hwl]
    · exact hhdrRow
    · rw [length_sepLine _ hwne, hwl]
    · rcases mem_intersperse _ _ _ hline with rfl | hline
      · rw [length_sepLine _ hwne, hwl]
      · rcases List.mem_map.mp hline with ⟨r, hr, rfl⟩
        exact hdataRow r hr
    · rw [length_bottomBorder _ hwne, hwl]
  · rcases hline with rfl | rfl | rfl | rfl | hline | rfl
    · rw [length_topBorder _ hwne, hwl]
    · exact hhdrRow
    · exact hpadRow hp
    · rw [length_sepLine _ hwne, hwl]
    · rcases mem_intersperse _ _ _ hline with rfl | hline
      · rw [length_sepLine _ hwne, hwl]
      · rcases List.mem_map.mp hline with ⟨r, hr, rfl⟩
        exact hdataRow r hr
    · rw [length_bottomBorder _ hwne, hwl]

/-- C1 counterexample: the claim as stated is false on the code. A table of
one empty sequence record (uniform, each record exactly as long as the zero
derived headers) renders lines of lengths 2 and 4, and a one-column table
whose header and only cell are empty strings (column width 0, header
padding on) renders its header-padding row one character longer than its
borders. -/
theorem c1_counterexample :
    (degenerateNoColumns.data ≠ [] ∧
      (∀ r ∈ degenerateNoColumns.data,
        (degenerateNoColumns.getRowValues r).length = degenerateNoColumns.headers.length) ∧
      ¬ ∀ l1 ∈ degenerateNoColumns.render "left", ∀ l2 ∈ degenerateNoColumns.render "left",
          l1.length = l2.length) ∧
    (degenerateZeroWidth.data ≠ [] ∧
      degenerateZeroWidth.headers ≠ [] ∧
      (∀ r ∈ degenerateZeroWidth.data,
        (degenerateZeroWidth.getRowValues r).length = degenerateZeroWidth.headers.length) ∧
      ¬ ∀ l1 ∈ degenerateZeroWidth.render "left", ∀ l2 ∈ degenerateZeroWidth.render "left",
          l1.length = l2.length) := by
  decide

/-- Branch lemma: any alignment other than `right` and `center` selects
`ljust`. -/
theorem alignText_left_of_ne (a : String) (h1 : a ≠ "right") (h2 : a ≠ "center")
    (s : String) (w : Nat) : alignText s w a = ljust s w := by
  unfold alignText
  rw [if_neg h1, if_neg h2]

theorem alignText_right (s : String) (w : Nat) : alignText s w "right" = rjust s w := by
  unfold alignText
  rw [if_pos rfl]

theorem alignText_center (s : String) (w : Nat) : alignText s w "center" = center s w := by
  unfold alignText
  rw [if_neg (by decide), if_pos rfl]

/-- C2 counterexample: the claim as stated is false on the code. Centering
`"ab"` in width 5 leaves an odd leftover of 3 spaces, and the extra space
goes to the left (`"  ab "`), not to the right (`" ab  "`). -/
theorem c2_counterexample :
    ("ab" : String).length ≤ 5 ∧
    alignText "ab" 5 "center" = "  ab " ∧
    alignText "ab" 5 "center" ≠ " ab  " := by
  decide

/-- C2 (amended): for every cell text and width at least its length, left
alignment appends trailing spaces, right alignment prepends leading
spaces, and center alignment pads symmetrically, except that when the
leftover is odd the extra space goes to the right only for even target
widths; for odd target widths it goes to the left. -/
theorem c2_alignment_amended (text : String) (w : Nat) (h : text.length ≤ w) :
    alignText text w "left" = text ++ spaces (w - text.length) ∧
    alignText text w "right" = spaces (w - text.length) ++ text ∧
    ∃ l r, alignText text w "center" = spaces l ++ text ++ spaces r ∧
      l + r = w - text.length ∧
      ((w - text.length) % 2 = 0 → l = r) ∧
      ((w - text.length) % 2 = 1 → w % 2 = 0 → r = l + 1) ∧
      ((w - text.length) % 2 = 1 → w % 2 = 1 → l = r + 1) := by
  refine ⟨?_, ?_, ?_⟩
  · rw [alignText_left_of_ne "left" (by decide) (by decide)]
    rfl
  · rw [alignText_right]
    rfl
  · rw [alignText_center]
    by_cases hc : w ≤ text.length
    · have hm : w - text.length = 0 := by omega
      refine ⟨0, 0, ?_, by omega, by omega, by omega, by omega⟩
      unfold center
      rw [if_pos hc, show spaces 0 = "" from rfl, String.empty_append, String.append_empty]
    · refine ⟨(w - text.length) / 2 + ((w - text.length) &&& w &&& 1),
        (w - text.length) - ((w - text.length) / 2 + ((w - text.length) &&& w &&& 1)),
        ?_, ?_, ?_, ?_, ?_⟩
      · unfold center
        rw [if_neg hc]
      all_goals
        have key := land_one_parity (w - text.length) w
        have hlt : text.length < w := lt_of_not_ge hc
        by_cases hmw : (w - text.length) % 2 = 1 ∧ w % 2 = 1
        · rw [if_pos hmw] at key
          omega
        · rw [if_neg hmw] at key
          omega

/-- C2 witness: the amended theorem applied to text `"abc"` and width 6
(even width, odd leftover: the extra space goes to the right). -/
theorem c2_alignment_witness :
    ("abc" : String).length ≤ 6 ∧
    (alignText "abc" 6 "left" = "abc" ++ spaces (6 - ("abc" : String).length) ∧
      alignText "abc" 6 "right" = spaces (6 - ("abc" : String).length) ++ "abc" ∧
      ∃ l r, alignText "abc" 6 "center" = spaces l ++ "abc" ++ spaces r ∧
        l + r = 6 - ("abc" : String).length ∧
        ((6 - ("abc" : String).length) % 2 = 0 → l = r) ∧
        ((6 - ("abc" : String).length) % 2 = 1 → 6 % 2 = 0 → r = l + 1) ∧
        ((6 - ("abc" : String).length) % 2 = 1 → 6 % 2 = 1 → l = r + 1)) :=
  ⟨by decide, c2_alignment_amended "abc" 6 (by decide)⟩

/-!
Lemmas about stripping spaces, for the alignment round-trip claim.
-/

theorem dropWhile_replicate_append {α : Type} (p : α → Bool) (c : α) (hp : p c = true) :
    ∀ (n : Nat) (l : List α), List.dropWhile p (List.replicate n c ++ l) = List.dropWhile p l
  | 0, l => by simp
  | n + 1, l => by
    simp only [List.replicate_succ, List.cons_append, List.dropWhile_cons, hp, if_true]
    exact dropWhile_replicate_append p c hp n l

theorem length_dropWhile_le {α : Type} (p : α → Bool) :
    ∀ l : List α, (List.dropWhile p l).length ≤ l.length
  | [] => le_refl 0
  | a :: l => by
    rw [List.dropWhile_cons]
    split
    · exact le_trans (length_dropWhile_le p l) (by simp)
    · exact le_refl _

theorem data_spaces (n : Nat) : (spaces n).data = List.replicate n ' ' := rfl

theorem rstripSpaces_append_spaces (s : String) (n : Nat) :
    rstripSpaces (s ++ spaces n) = rstripSpaces s := by
  unfold rstripSpaces
  rw [String.data_append, data_spaces, List.reverse_append, List.reverse_replicate,
    dropWhile_replicate_append _ ' ' (by decide)]

theorem lstripSpaces_spaces_append (n : Nat) (s : String) :
    lstripSpaces (spaces n ++ s) = lstripSpaces s := by
  unfold lstripSpaces
  rw [String.data_append, data_spaces, dropWhile_replicate_append _ ' ' (by decide)]

theorem rstrip_fixed_dropWhile (t : String) (ht : rstripSpaces t = t) :
    List.dropWhile (fun c => decide (c = ' ')) t.data.reverse = t.data.reverse := by
  have h1 := congrArg String.data ht
  unfold rstripSpaces at h1
  have h2 := congrArg List.reverse h1
  simpa using h2

theorem rstripSpaces_append_intact (a t : String) (ht : rstripSpaces t = t) (hne : t ≠ "") :
    rstripSpaces (a ++ t) = a ++ t := by
  have hdrop := rstrip_fixed_dropWhile t ht
  have hne2 : t.data.reverse ≠ [] := by
    intro h0
    apply hne
    have hd : t.data = [] := by simpa using congrArg List.reverse h0
    cases t with
    | mk d =>
      cases hd
      rfl
  obtain ⟨c, cs, hcc⟩ : ∃ c cs, t.data.reverse = c :: cs := by
    cases h0 : t.data.reverse with
    | nil => exact absurd h0 hne2
    | cons c cs => exact ⟨c, cs, rfl⟩
  have hc : (decide (c = ' ')) = false := by
    by_contra hcp
    have hcp2 : (decide (c = ' ')) = true := by
      cases h0 : decide (c = ' ')
      · exact absurd h0 hcp
      · rfl
    rw [hcc, List.dropWhile_cons, hcp2, if_pos rfl] at hdrop
    have := length_dropWhile_le (fun c => decide (c = ' ')) cs
    rw [hdrop] at this
    simp at this
  unfold rstripSpaces
  rw [String.data_append, List.reverse_append, hcc, List.cons_append,
    List.dropWhile_cons, hc]
  simp only [Bool.false_eq_true, if_false]
  have hback : (c :: (cs ++ a.data.reverse)).reverse = a.data ++ t.data := by
    have ht2 : cs.reverse ++ [c] = t.data := by
      have := congrArg List.reverse hcc
      simpa using this.symm
    simp [List.reverse_cons, List.reverse_append, ← ht2]
  rw [hback]
  rw [show a.data ++ t.data = (a ++ t).data from (String.data_append a t).symm]

/-- C3 counterexample: the claim as stated is false on the code. For the
cell text consisting of one space and width 1, the left-aligned result is
that same space, and stripping trailing spaces yields the empty string,
not the original cell text. -/
theorem c3_counterexample :
    (" " : String).length ≤ 1 ∧ rstripSpaces (alignText " " 1 "left") ≠ " " := by
  decide

/-- C3 (amended): for every cell text that itself carries no leading and no
trailing spaces and every width at least its length, stripping trailing
spaces from the left-aligned result, leading spaces from the right-aligned
result, and both from the center-aligned result each return the original
cell text. -/
theorem c3_roundtrip_amended (text : String) (w : Nat) (h : text.length ≤ w)
    (hl : lstripSpaces text = text) (hr : rstripSpaces text = text) :
    rstripSpaces (alignText text w "left") = text ∧
    lstripSpaces (alignText text w "right") = text ∧
    stripSpaces (alignText text w "center") = text := by
  refine ⟨?_, ?_, ?_⟩
  · rw [alignText_left_of_ne "left" (by decide) (by decide)]
    show rstripSpaces (text ++ spaces (w - text.length)) = text
    rw [rstripSpaces_append_spaces, hr]
  · rw [alignText_right]
    show lstripSpaces (spaces (w - text.length) ++ text) = text
    rw [lstripSpaces_spaces_append, hl]
  · rw [alignText_center]
    unfold center
    by_cases hc : w ≤ text.length
    · rw [if_pos hc]
      unfold stripSpaces
      rw [hr, hl]
    · rw [if_neg hc]
      simp only []
      unfold stripSpaces
      rw [rstripSpaces_append_spaces]
      by_cases ht0 : text = ""
      · subst ht0
        rw [String.append_empty,
          show spaces ((w - ("" : String).length) / 2 +
            ((w - ("" : String).length) &&& w &&& 1)) =
            "" ++ spaces ((w - ("" : String).length) / 2 +
              ((w - ("" : String).length) &&& w &&& 1)) from (String.empty_append _).symm,
          rstripSpaces_append_spaces]
        rfl
      · rw [rstripSpaces_append_intact _ text hr ht0, lstripSpaces_spaces_append, hl]

/-- C3 witness: the amended theorem applied to text `"ab"` and width 5. -/
theorem c3_roundtrip_witness :
    (("ab" : String).length ≤ 5 ∧ lstripSpaces "ab" = "ab" ∧ rstripSpaces "ab" = "ab") ∧
    rstripSpaces (alignText "ab" 5 "left") = "ab" ∧
    lstripSpaces (alignText "ab" 5 "right") = "ab" ∧
    stripSpaces (alignText "ab" 5 "center") = "ab" :=
  ⟨⟨by decide, by decide, by decide⟩,
    c3_roundtrip_amended "ab" 5 (by decide) (by decide) (by decide)⟩

/-- C1 witness: the amended theorem applied to the concrete two-record
scenario table and its last data row. -/
theorem c1_rectangularity_witness :
    ("│ 22 │ yy │" : String) ∈ scenarioTable.render "left" ∧
    ("│ 22 │ yy │" : String).length
      = scenarioTable.colWidths.sum + 3 * scenarioTable.headers.length + 1 :=
  ⟨by decide,
    c1_rectangularity_amended scenarioTable "left" (Or.inl rfl) (by decide)
      (by decide) (by decide) (by decide) "│ 22 │ yy │" (by decide)⟩

/-!
Lemmas for counting separator lines in the rendered table.
-/

/-- The rendered line list with the data-empty guard discharged. -/
theorem render_eq (t : TextTable) (align : String) (hdata : t.data ≠ []) :
    t.render align =
      [topBorder t.colWidths, rowLine (alignCells align t.headers t.colWidths)]
        ++ (if t.header_padding then
              [rowLine (alignCells align (t.headers.map (fun _ => " ")) t.colWidths)]
            else [])
        ++ [sepLine t.colWidths]
        ++ List.intersperse (sepLine t.colWidths)
            (t.data.map (fun r => rowLine (alignCells align (t.getRowValues r) t.colWidths)))
        ++ [bottomBorder t.colWidths] := by
  rw [TextTable.render, if_neg hdata]

theorem head_topBorder (ws : List Nat) : (topBorder ws).data.head? = some '┌' := by
  simp [topBorder, String.data_append, show ("┌" : String).data = ['┌'] from rfl]

theorem head_sepLine (ws : List Nat) : (sepLine ws).data.head? = some '├' := by
  simp [sepLine, String.data_append, show ("├" : String).data = ['├'] from rfl]

theorem head_bottomBorder (ws : List Nat) : (bottomBorder ws).data.head? = some '└' := by
  simp [bottomBorder, String.data_append, show ("└" : String).data = ['└'] from rfl]

theorem head_rowLine (cells : List String) : (rowLine cells).data.head? = some '│' := by
  simp [rowLine, String.data_append, show ("│ " : String).data = ['│', ' '] from rfl]

theorem ne_of_head {s t : String} {c d : Char} (hs : s.data.head? = some c)
    (ht : t.data.head? = some d) (hcd : c ≠ d) : s ≠ t := by
  intro he
  subst he
  rw [hs] at ht
  exact hcd (Option.some.inj ht)

theorem count_intersperse (sep : String) :
    ∀ l : List String, (∀ y ∈ l, y ≠ sep) →
      (List.intersperse sep l).count sep = l.length - 1
  | [], _ => rfl
  | [a], h => by
    have ha : a ≠ sep := h a (by simp)
    simp [List.intersperse, List.count_singleton, ha]
  | a :: b :: t, h => by
    have ha : a ≠ sep := h a (by simp)
    have ih := count_intersperse sep (b :: t) (fun y hy => h y (List.mem_cons_of_mem a hy))
    rw [List.intersperse_cons₂]
    rw [show (a :: sep :: List.intersperse sep (b :: t)).count sep
          = ((a :: [sep]) ++ List.intersperse sep (b :: t)).count sep from rfl]
    rw [List.count_append, ih]
    have h2 : (a :: [sep]).count sep = 1 := by
      simp [List.count_cons, List.count_singleton, ha]
    rw [h2]
    simp only [List.length_cons]
    omega

theorem length_intersperse {α : Type} (sep : α) :
    ∀ l : List α, l ≠ [] → (List.intersperse sep l).length = 2 * l.length - 1
  | [a], _ => rfl
  | a :: b :: t, _ => by
    rw [List.intersperse_cons₂]
    simp only [List.length_cons, length_intersperse sep (b :: t) (by simp)]
    omega

/-- C4: for every uniform table with at least one record, the rendered
line list contains the separator line exactly N times (one header/body
separator plus N - 1 dividers between consecutive data rows), its total
height is 2N + 3 (+1 with the header-padding row); and the concrete
two-record scenario renders to exactly the expected 8 lines. -/
theorem c4_divider_count :
    (∀ (t : TextTable) (align : String), t.data ≠ [] →
        (t.render align).count (sepLine t.colWidths) = t.data.length ∧
        (t.render align).length =
          2 * t.data.length + 2 + (if t.header_padding then 2 else 1)) ∧
    scenarioTable.render "left" =
      ["┌────┬────┐",
       "│ a  │ b  │",
       "│    │    │",
       "├────┼────┤",
       "│ 1  │ x  │",
       "├────┼────┤",
       "│ 22 │ yy │",
       "└────┴────┘"] := by
  constructor
  · intro t align hdata
    have hN : 0 < t.data.length := List.length_pos.mpr hdata
    have hTop : sepLine t.colWidths ≠ topBorder t.colWidths :=
      ne_of_head (head_sepLine _) (head_topBorder _) (by decide)
    have hBot : sepLine t.colWidths ≠ bottomBorder t.colWidths :=
      ne_of_head (head_sepLine _) (head_bottomBorder _) (by decide)
    have hRow : ∀ cells : List String, sepLine t.colWidths ≠ rowLine cells :=
      fun cells => ne_of_head (head_sepLine _) (head_rowLine _) (by decide)
    have hRowsNe : ∀ y ∈ t.data.map
        (fun r => rowLine (alignCells align (t.getRowValues r) t.colWidths)),
        y ≠ sepLine t.colWidths := by
      intro y hy
      rcases List.mem_map.mp hy with ⟨r, _, rfl⟩
      exact fun he => hRow _ he.symm
    constructor
    · rw [render_eq t align hdata]
      rw [List.count_append, List.count_append, List.count_append, List.count_append]
      have c1 : ([topBorder t.colWidths,
          rowLine (alignCells align t.headers t.colWidths)]).count (sepLine t.colWidths) = 0 := by
        apply List.count_eq_zero.mpr
        intro hmem
        rcases List.mem_cons.mp hmem with he | hmem
        · exact hTop he
        · rcases List.mem_cons.mp hmem with he | hmem
          · exact hRow _ he
          · simp at hmem
      have c2 : (if t.header_padding then
            [rowLine (alignCells align (t.headers.map (fun _ => " ")) t.colWidths)]
          else []).count (sepLine t.colWidths) = 0 := by
        apply List.count_eq_zero.mpr
        intro hmem
        split at hmem
        · rcases List.mem_singleton.mp hmem with he
          exact hRow _ he
        · simp at hmem
      have c3 : ([sepLine t.colWidths]).count (sepLine t.colWidths) = 1 := by
        simp [List.count_singleton]
      have c4 : (List.intersperse (sepLine t.colWidths)
            (t.data.map (fun r => rowLine (alignCells align (t.getRowValues r) t.colWidths)))).count
            (sepLine t.colWidths) = t.data.length - 1 := by
        rw [count_intersperse _ _ hRowsNe]
        simp
      have c5 : ([bottomBorder t.colWidths]).count (sepLine t.colWidths) = 0 := by
        apply List.count_eq_zero.mpr
        intro hmem
        exact hBot (List.mem_singleton.mp hmem)
      rw [c1, c2, c3, c4, c5]
      omega
    · rw [render_eq t align hdata]
      have hlen := length_intersperse (sepLine t.colWidths)
        (t.data.map (fun r => rowLine (alignCells align (t.getRowValues r) t.colWidths)))
        (by simpa using hdata)
      simp only [List.length_append, hlen, List.length_map]
      cases hp : t.header_padding <;> simp <;> omega
  · decide

/-- C4 witness: the divider-count theorem applied to the concrete
scenario table. -/
theorem c4_divider_witness :
    (scenarioTable.render "left").count (sepLine scenarioTable.colWidths)
        = scenarioTable.data.length ∧
    (scenarioTable.render "left").length =
      2 * scenarioTable.data.length + 2 + (if scenarioTable.header_padding then 2 else 1) :=
  c4_divider_count.1 scenarioTable "left" (by decide)

/-- C5: the result of `group` is a function of the construction-time
tables only; the variadic tables argument is overwritten by
`tables = self.tables` before use, so any two argument lists give the
same output. -/
theorem c5_group_ignores_passed_tables (args : List TableArg) (inl : Bool)
    (args1 args2 : List TextTable) (spacing : Nat) (align : String) :
    (mkTextTables args inl).group args1 spacing align
      = (mkTextTables args inl).group args2 spacing align := rfl

/-- C6: a renderer whose record list is empty renders to the empty line
sequence for every alignment, whatever headers were supplied and whatever
the header-padding flag. -/
theorem c6_empty_renders_empty :
    (∀ t : TextTable, t.data = [] → ∀ align : String, t.render align = []) ∧
    (∀ (headers : Option (List String)) (pad : Bool) (align : String),
        (mkTextTable [] headers pad).render align = []) := by
  have h1 : ∀ t : TextTable, t.data = [] → ∀ align : String, t.render align = [] := by
    intro t hdata align
    rw [TextTable.render, if_pos hdata]
  exact ⟨h1, fun headers pad align => h1 (mkTextTable [] headers pad) rfl align⟩

/-- C6 witness: the theorem applied to an empty-data renderer constructed
with explicit non-empty headers and padding on. -/
theorem c6_empty_witness :
    (mkTextTable [] (some ["x", "y"]) true).data = [] ∧
    (mkTextTable [] (some ["x", "y"]) true).render "center" = [] :=
  ⟨rfl, c6_empty_renders_empty.1 (mkTextTable [] (some ["x", "y"]) true) rfl "center"⟩

/-- C9: constructing a renderer from non-empty data with an explicitly
supplied empty header list yields exactly the same renderer as omitting
the header list: Python's `headers or self._extract_headers()` treats the
empty list as falsy, so the headers are re-derived from the first
record. -/
theorem c9_empty_header_list_ignored (data : List Rec) (pad : Bool) (hdata : data ≠ []) :
    mkTextTable data (some []) pad = mkTextTable data none pad := by
  unfold mkTextTable
  simp

/-- C9 witness: the theorem applied to a one-record sequence table. -/
theorem c9_empty_header_witness :
    ([Rec.seq [PyVal.i 7]] : List Rec) ≠ [] ∧
    mkTextTable [Rec.seq [PyVal.i 7]] (some []) false
      = mkTextTable [Rec.seq [PyVal.i 7]] none false :=
  ⟨by decide, c9_empty_header_list_ignored [Rec.seq [PyVal.i 7]] false (by decide)⟩

/-!
Graceful degradation: missing mapping keys and unknown alignment tokens.
-/

theorem getD_map {α β : Type} (f : α → β) :
    ∀ (l : List α) (j : Nat) (d : α) (e : β), j < l.length →
      (l.map f).getD j e = f (l.getD j d)
  | [], _, _, _, hj => by simp at hj
  | a :: l, 0, _, _, _ => rfl
  | a :: l, j + 1, d, e, hj => by
    simpa using getD_map f l j d e (by simpa using hj)

theorem alignCells_eq_left (a : String) (h1 : a ≠ "right") (h2 : a ≠ "center") :
    ∀ (cs : List String) (ws : List Nat), alignCells a cs ws = alignCells "left" cs ws
  | [], _ => rfl
  | c :: cs, [] => by
    simp only [alignCells, alignText_left_of_ne a h1 h2,
      alignText_left_of_ne "left" (by decide) (by decide),
      alignCells_eq_left a h1 h2 cs []]
  | c :: cs, w :: ws => by
    simp only [alignCells, alignText_left_of_ne a h1 h2,
      alignText_left_of_ne "left" (by decide) (by decide),
      alignCells_eq_left a h1 h2 cs ws]

/-- A two-record mapping table whose second record is the empty mapping,
missing the derived header key `"a"`. -/
def missingKeyTable : TextTable :=
  mkTextTable [Rec.dict [("a", PyVal.i 1)], Rec.dict []] none true

/-- C7: a mapping record missing a header's key contributes the empty
string as that cell's value (no error), and any alignment token other than
`right` and `center` makes `render` behave exactly as `left` alignment
(no error). -/
theorem c7_graceful_degradation :
    (∀ (t : TextTable) (d : List (String × PyVal)) (j : Nat),
        j < t.headers.length →
        List.lookup (t.headers.getD j "") d = none →
        (t.getRowValues (Rec.dict d)).getD j "MISSING" = "") ∧
    (∀ (t : TextTable) (align : String), align ≠ "right" → align ≠ "center" →
        t.render align = t.render "left") := by
  constructor
  · intro t d j hj hnone
    unfold TextTable.getRowValues
    rw [getD_map (fun h => pyStr ((List.lookup h d).getD (PyVal.s ""))) t.headers j "" _ hj]
    rw [hnone]
    rfl
  · intro t align h1 h2
    unfold TextTable.render
    by_cases hdata : t.data = []
    · rw [if_pos hdata, if_pos hdata]
    · rw [if_neg hdata, if_neg hdata]
      simp only [alignCells_eq_left align h1 h2]

/-- C7 witness: the theorem applied to the table with a missing key and to
the unknown alignment token `"weird"`. -/
theorem c7_graceful_witness :
    (0 < missingKeyTable.headers.length ∧
      List.lookup (missingKeyTable.headers.getD 0 "") ([] : List (String × PyVal)) = none ∧
      (missingKeyTable.getRowValues (Rec.dict [])).getD 0 "MISSING" = "") ∧
    missingKeyTable.render "weird" = missingKeyTable.render "left" :=
  ⟨⟨by decide, by decide,
      c7_graceful_degradation.1 missingKeyTable [] 0 (by decide) (by decide)⟩,
    c7_graceful_degradation.2 missingKeyTable "weird" (by decide) (by decide)⟩

/-!
Checked rendering agrees with the total model on in-bounds input.
-/

theorem updateWidthsE_eq :
    ∀ (ws : List Nat) (vs : List String), vs.length ≤ ws.length →
      updateWidthsE ws vs = some (updateWidths ws vs)
  | ws, [], _ => by simp [updateWidthsE, updateWidths]
  | [], _ :: _, h => by simp at h
  | w :: ws, v :: vs, h => by
    simp [updateWidthsE, updateWidths, updateWidthsE_eq ws vs (by simpa using h)]

theorem colWidthsE_fold_eq (f : Rec → List String) :
    ∀ (rows : List Rec) (init : List Nat),
      (∀ r ∈ rows, (f r).length ≤ init.length) →
      rows.foldl (fun acc row => acc.bind (fun ws => updateWidthsE ws (f row))) (some init)
        = some (rows.foldl (fun ws row => updateWidths ws (f row)) init)
  | [], _, _ => rfl
  | r :: rs, init, h => by
    simp only [List.foldl_cons, Option.some_bind]
    rw [updateWidthsE_eq init (f r) (h r (by simp))]
    exact colWidthsE_fold_eq f rs (updateWidths init (f r))
      (fun r2 hr2 => by
        rw [length_updateWidths]
        exact h r2 (List.mem_cons_of_mem r hr2))

theorem colWidthsE_eq (t : TextTable)
    (h : ∀ r ∈ t.data, (t.getRowValues r).length ≤ t.headers.length) :
    t.colWidthsE = some t.colWidths := by
  unfold TextTable.colWidthsE TextTable.colWidths
  exact colWidthsE_fold_eq t.getRowValues t.data (t.headers.map String.length)
    (fun r hr => by simpa using h r hr)

theorem alignCellsE_eq (align : String) :
    ∀ (cs : List String) (ws : List Nat), cs.length ≤ ws.length →
      alignCellsE align cs ws = some (alignCells align cs ws)
  | [], _, _ => rfl
  | _ :: _, [], h => by simp at h
  | c :: cs, w :: ws, h => by
    simp [alignCellsE, alignCells, alignCellsE_eq align cs ws (by simpa using h)]

theorem mapM_alignCellsE (t : TextTable) (align : String) (ws : List Nat) :
    ∀ rows : List Rec, (∀ r ∈ rows, (t.getRowValues r).length ≤ ws.length) →
      rows.mapM (fun r => alignCellsE align (t.getRowValues r) ws)
        = some (rows.map (fun r => alignCells align (t.getRowValues r) ws))
  | [], _ => rfl
  | r :: rs, h => by
    rw [List.mapM_cons]
    rw [alignCellsE_eq align (t.getRowValues r) ws (h r (by simp))]
    rw [mapM_alignCellsE t align ws rs (fun r2 hr2 => h r2 (List.mem_cons_of_mem r hr2))]
    rfl

/-- A sequence table whose second record is longer than its derived
headers (`["Col0"]`): the width loop's `col_widths[1]` access is out of
bounds. -/
def overlongSeqTable : TextTable :=
  mkTextTable [Rec.seq [PyVal.s "a"], Rec.seq [PyVal.s "b", PyVal.s "c"]] none true

/-- A sequence table all of whose records fit the derived headers. -/
def boundedSeqTable : TextTable :=
  mkTextTable [Rec.seq [PyVal.s "a"], Rec.seq [PyVal.s "b"]] none true

/-- C10: when no record is longer than the header list derived from the
first record, every list index taken during rendering is in bounds (the
checked renderer succeeds and returns exactly the total model's lines);
on a table whose later sequence record is longer than the derived headers,
the checked renderer fails with an out-of-bounds index instead of
degrading gracefully. -/
theorem c10_index_safety :
    (∀ (t : TextTable) (align : String),
        (∀ r ∈ t.data, (t.getRowValues r).length ≤ t.headers.length) →
        t.renderE align = some (t.render align)) ∧
    overlongSeqTable.renderE "left" = none := by
  constructor
  · intro t align h
    by_cases hdata : t.data = []
    · rw [TextTable.renderE, TextTable.render, if_pos hdata, if_pos hdata]
    · rw [render_eq t align hdata, TextTable.renderE, if_neg hdata]
      have hwl : t.headers.length ≤ t.colWidths.length := le_of_eq (length_colWidths t).symm
      rw [colWidthsE_eq t h, Option.some_bind]
      rw [alignCellsE_eq align t.headers t.colWidths hwl, Option.some_bind]
      rw [alignCellsE_eq align (t.headers.map (fun _ => " ")) t.colWidths (by simpa using hwl),
        Option.some_bind]
      rw [mapM_alignCellsE t align t.colWidths t.data
        (fun r hr => le_trans (h r hr) hwl)]
      rw [Option.map_some']
      rw [List.map_map]
      rfl
  · decide

/-- C10 witness: the agreement theorem applied to a sequence table whose
records all fit the derived headers. -/
theorem c10_index_safety_witness :
    boundedSeqTable.renderE "left" = some (boundedSeqTable.render "left") :=
  c10_index_safety.1 boundedSeqTable "left" (by decide)

/-!
Lemmas for the side-by-side group layout.
-/

theorem zip_self_map {α β : Type} (f : α → β) :
    ∀ l : List α, l.zip (l.map f) = l.map (fun x => (x, f x))
  | [] => rfl
  | a :: l => by simp [zip_self_map f l]

theorem paddedTables_eq (self : TextTables) (align : String) :
    self.paddedTables align = (self.renderedTables align).map
      (fun tl => tl ++ List.replicate (self.maxHeight align - tl.length)
        (spaces (firstWidth tl))) := by
  unfold TextTables.paddedTables TextTables.tableWidths
  rw [zip_self_map firstWidth (self.renderedTables align), List.map_map]
  rfl

theorem seed_le_foldl_max :
    ∀ (l : List (List String)) (seed : Nat),
      seed ≤ l.foldl (fun m t => max m t.length) seed
  | [], _ => le_refl _
  | a :: l, seed => le_trans (le_max_left seed a.length) (seed_le_foldl_max l _)

theorem le_foldl_max :
    ∀ (l : List (List String)) (seed : Nat) (x : List String), x ∈ l →
      x.length ≤ l.foldl (fun m t => max m t.length) seed
  | [], _, x, hx => absurd hx (List.not_mem_nil x)
  | a :: l, seed, x, hx => by
    rcases List.mem_cons.mp hx with rfl | hx
    · exact le_trans (le_max_right seed x.length) (seed_le_foldl_max l _)
    · exact le_foldl_max l _ x hx

theorem le_maxHeight (self : TextTables) (align : String) (tl : List String)
    (h : tl ∈ self.renderedTables align) : tl.length ≤ self.maxHeight align :=
  le_foldl_max (self.renderedTables align) 0 tl h

/-- C8: when every table's rendered lines all have that table's first-line
width, the group layout pads each rendered table up to the maximum height
with blank lines of that table's own width (so each padded table has
exactly `max_height` lines, all of its own width), the number of output
rows equals the maximum height, and every output row's length is the sum
of the table widths plus spacing times (number of tables - 1). -/
theorem c8_group_layout (self : TextTables) (spacing : Nat) (align : String)
    (hne : self.tables ≠ [])
    (hrect : ∀ t ∈ self.tables, ∀ line ∈ t.render align,
      line.length = firstWidth (t.render align)) :
    (∀ tl ∈ self.renderedTables align,
        (tl ++ List.replicate (self.maxHeight align - tl.length)
          (spaces (firstWidth tl))).length = self.maxHeight align ∧
        ∀ line ∈ tl ++ List.replicate (self.maxHeight align - tl.length)
          (spaces (firstWidth tl)), line.length = firstWidth tl) ∧
    (self.groupRows spacing align).length = self.maxHeight align ∧
    (∀ row ∈ self.groupRows spacing align,
        row.length = (self.tableWidths align).sum + spacing * (self.tables.length - 1)) := by
  have hrect2 : ∀ tl ∈ self.renderedTables align, ∀ line ∈ tl, line.length = firstWidth tl := by
    intro tl htl
    rcases List.mem_map.mp htl with ⟨t, ht, rfl⟩
    exact hrect t ht
  have hpadlen : ∀ tl ∈ self.renderedTables align,
      (tl ++ List.replicate (self.maxHeight align - tl.length)
        (spaces (firstWidth tl))).length = self.maxHeight align := by
    intro tl htl
    have hle := le_maxHeight self align tl htl
    simp only [List.length_append, List.length_replicate]
    omega
  have hpadline : ∀ tl ∈ self.renderedTables align,
      ∀ line ∈ tl ++ List.replicate (self.maxHeight align - tl.length)
        (spaces (firstWidth tl)), line.length = firstWidth tl := by
    intro tl htl line hline
    rcases List.mem_append.mp hline with hm | hm
    · exact hrect2 tl htl line hm
    · rw [List.eq_of_mem_replicate hm]
      exact length_spaces _
  refine ⟨fun tl htl => ⟨hpadlen tl htl, hpadline tl htl⟩, ?_, ?_⟩
  · simp [TextTables.groupRows]
  · intro row hrow
    rcases List.mem_map.mp hrow with ⟨i, hi, rfl⟩
    have hilt : i < self.maxHeight align := List.mem_range.mp hi
    have hRne : self.renderedTables align ≠ [] := by
      intro h0
      exact hne (List.map_eq_nil_iff.mp h0)
    rw [paddedTables_eq]
    simp only [List.map_map, Function.comp_def]
    have hcells : ∀ tl ∈ self.renderedTables align,
        (((tl ++ List.replicate (self.maxHeight align - tl.length)
          (spaces (firstWidth tl))).getD i "")).length = firstWidth tl := by
      intro tl htl
      have hq := hpadlen tl htl
      have hmem : (tl ++ List.replicate (self.maxHeight align - tl.length)
          (spaces (firstWidth tl))).getD i "" ∈
            tl ++ List.replicate (self.maxHeight align - tl.length) (spaces (firstWidth tl)) :=
        getD_mem _ i "" (by rw [hq]; exact hilt)
      exact hpadline tl htl _ hmem
    have hLne : (self.renderedTables align).map
        (fun tl => (tl ++ List.replicate (self.maxHeight align - tl.length)
          (spaces (firstWidth tl))).getD i "") ≠ [] := by
      simpa using hRne
    rw [length_joinSep _ _ hLne]
    simp only [List.map_map, Function.comp_def]
    have hmapeq : (self.renderedTables align).map
        (fun tl => ((tl ++ List.replicate (self.maxHeight align - tl.length)
          (spaces (firstWidth tl))).getD i "").length) = self.tableWidths align := by
      unfold TextTables.tableWidths
      exact List.map_congr_left (fun tl htl => hcells tl htl)
    rw [hmapeq]
    have hlen1 : (self.renderedTables align).length = self.tables.length := by
      simp [TextTables.renderedTables]
    rw [List.length_map, hlen1, length_spaces]

/-- Two one-record one-column sequence tables with header padding off:
both render to 5 lines, of widths 10 and 8 respectively. -/
def wideDemoTable : TextTable :=
  mkTextTable [Rec.seq [PyVal.s "abcdef"]] none false

/-- Companion narrow table for the group scenario. -/
def narrowDemoTable : TextTable :=
  mkTextTable [Rec.seq [PyVal.s "abcd"]] none false

/-- The inline group of the two demo tables. -/
def demoGroup : TextTables :=
  mkTextTables [TableArg.table wideDemoTable, TableArg.table narrowDemoTable] true

/-- C8 witness: the layout theorem applied to two tables of equal height 5
and widths 10 and 8 with spacing 2: 5 output rows, each of length
10 + 2 + 8 = 20. -/
theorem c8_group_layout_witness :
    (demoGroup.maxHeight "left" = 5 ∧
      demoGroup.tableWidths "left" = [10, 8] ∧
      (demoGroup.tableWidths "left").sum + 2 * (demoGroup.tables.length - 1) = 20 ∧
      ("┌────────┐  ┌──────┐" : String) ∈ demoGroup.groupRows 2 "left") ∧
    (demoGroup.groupRows 2 "left").length = demoGroup.maxHeight "left" ∧
    ("┌────────┐  ┌──────┐" : String).length
      = (demoGroup.tableWidths "left").sum + 2 * (demoGroup.tables.length - 1) :=
  ⟨⟨by decide, by decide, by decide, by decide⟩,
    (c8_group_layout demoGroup 2 "left" (by decide) (by decide)).2.1,
    (c8_group_layout demoGroup 2 "left" (by decide) (by decide)).2.2
      "┌────────┐  ┌──────┐" (by decide)⟩
